import Mathlib

/-!
Shallow embedding of the LC-3 virtual machine core from `lc3.c`.

The machine word is modelled as `Nat` with explicit `% 65536` wherever the
C code performs 16-bit arithmetic.  The host environment (the byte source
read by `getchar`, the keystroke probe `check_key`, and the byte sink fed
by `putc`) is modelled as explicit oracle state threaded through the
functions: `input` is the list of bytes `getchar` will deliver (empty list
means end of file, where `getchar` returns -1), `keys` is the list of
successive results of the `select`-based keystroke probe (exhausted list
means no key pending), and `output` collects the bytes written to stdout.
-/

namespace LC3

/-- Pointwise update of a function, used for both `memory[]` and `reg[]`
stores. -/
def upd (f : Nat → Nat) (i v : Nat) : Nat → Nat :=
  fun x => if x = i then v else f x

/-- Keyboard status register address `MR_KBSR = 0xFE00`. -/
def MR_KBSR : Nat := 0xFE00

/-- Keyboard data register address `MR_KBDR = 0xFE02`. -/
def MR_KBDR : Nat := 0xFE02

/-- The whole mutable state of `lc3.c` together with the host oracles:
`memory` and `reg` are the global arrays, `running` the run-loop flag;
`input`, `keys`, `output` model the host adapters. -/
structure Machine where
  memory : Nat → Nat
  reg : Nat → Nat
  input : List Nat
  keys : List Bool
  output : List Nat
  running : Bool

/-- `check_key()`: poll the host keystroke probe.  Consumes one oracle
entry; an exhausted oracle reports no key pending. -/
def check_key (m : Machine) : Bool × Machine :=
  (m.keys.headD false, { m with keys := m.keys.tail })

/-- `getchar()`: blocking read of one byte from the host byte source;
returns -1 (EOF) once the source is exhausted. -/
def getchar (m : Machine) : Int × Machine :=
  match m.input with
  | [] => (-1, m)
  | b :: rest => ((b : Int), { m with input := rest })

/-- Conversion of a C `int` to `uint16_t` (reduction modulo 2^16). -/
def int2uint16 (i : Int) : Nat := (i % 65536).toNat

/-- Conversion of a C `int` to signed `char` (wrap into [-128, 127]). -/
def int2char (i : Int) : Int := (i + 128) % 256 - 128

/-- `mem_read(address)`: a direct load except at `MR_KBSR`, where the
keystroke probe is consulted first and `memory[MR_KBSR]`,
`memory[MR_KBDR]` are refreshed. -/
def mem_read (address : Nat) (m : Machine) : Nat × Machine :=
  if address = MR_KBSR then
    let km := check_key m
    if km.1 then
      let cm := getchar km.2
      let mem2 := upd (upd cm.2.memory MR_KBSR 32768) MR_KBDR (int2uint16 cm.1)
      (mem2 address, { cm.2 with memory := mem2 })
    else
      let mem2 := upd km.2.memory MR_KBSR 0
      (mem2 address, { km.2 with memory := mem2 })
  else
    (m.memory address, m)

/-- `mem_write(address, val)`: direct store. -/
def mem_write (address val : Nat) (m : Machine) : Machine :=
  { m with memory := upd m.memory address val }

/-- `sign_extend(x, bit_count)`. -/
def sign_extend (x : Nat) (bit_count : Nat) : Nat :=
  if (x >>> (bit_count - 1)) &&& 1 = 1 then (x ||| (0xFFFF <<< bit_count)) % 65536
  else x

/-- `update_flags(r)`: reclassify register `r` into `reg[R_COND]`
(register index 9): zero gives `FL_ZRO = 2`, a set bit 15 gives
`FL_NEG = 4`, otherwise `FL_POS = 1`. -/
def update_flags (r : Nat) (regs : Nat → Nat) : Nat → Nat :=
  upd regs 9 (if regs r = 0 then 2 else if regs r >>> 15 ≠ 0 then 4 else 1)

/-- `addInstr`. -/
def addInstr (instr : Nat) (m : Machine) : Machine :=
  let r0 := (instr >>> 9) &&& 7
  let r1 := (instr >>> 6) &&& 7
  let imm_flag := (instr >>> 5) &&& 1
  let v :=
    if imm_flag = 1 then (m.reg r1 + sign_extend (instr &&& 0x1F) 5) % 65536
    else (m.reg r1 + m.reg (instr &&& 7)) % 65536
  { m with reg := update_flags r0 (upd m.reg r0 v) }

/-- `andInstr`. -/
def andInstr (instr : Nat) (m : Machine) : Machine :=
  let r0 := (instr >>> 9) &&& 7
  let r1 := (instr >>> 6) &&& 7
  let imm_flag := (instr >>> 5) &&& 1
  let v :=
    if imm_flag = 1 then m.reg r1 &&& sign_extend (instr &&& 0x1F) 5
    else m.reg r1 &&& m.reg (instr &&& 7)
  { m with reg := update_flags r0 (upd m.reg r0 v) }

/-- `notInstr`: `reg[r0] = ~reg[r1]`, a 16-bit complement. -/
def notInstr (instr : Nat) (m : Machine) : Machine :=
  let r0 := (instr >>> 9) &&& 7
  let r1 := (instr >>> 6) &&& 7
  { m with reg := update_flags r0 (upd m.reg r0 (m.reg r1 ^^^ 65535)) }

/-- `brInstr`. -/
def brInstr (instr : Nat) (m : Machine) : Machine :=
  let pc_offset := sign_extend (instr &&& 0x1FF) 9
  let cond_flag := (instr >>> 9) &&& 7
  if cond_flag &&& m.reg 9 ≠ 0 then
    { m with reg := upd m.reg 8 ((m.reg 8 + pc_offset) % 65536) }
  else m

/-- `jmpInstr`. -/
def jmpInstr (instr : Nat) (m : Machine) : Machine :=
  { m with reg := upd m.reg 8 (m.reg ((instr >>> 6) &&& 7)) }

/-- `jsrInstr` (both JSR and JSRR forms). -/
def jsrInstr (instr : Nat) (m : Machine) : Machine :=
  let long_flag := (instr >>> 11) &&& 1
  let m1 := { m with reg := upd m.reg 7 (m.reg 8) }
  if long_flag = 1 then
    { m1 with reg := upd m1.reg 8 ((m1.reg 8 + sign_extend (instr &&& 0x7FF) 11) % 65536) }
  else
    { m1 with reg := upd m1.reg 8 (m1.reg ((instr >>> 6) &&& 7)) }

/-- `ldInstr`. -/
def ldInstr (instr : Nat) (m : Machine) : Machine :=
  let r0 := (instr >>> 9) &&& 7
  let pc_offset := sign_extend (instr &&& 0x1FF) 9
  let rm := mem_read ((m.reg 8 + pc_offset) % 65536) m
  { rm.2 with reg := update_flags r0 (upd rm.2.reg r0 rm.1) }

/-- `ldiInstr`. -/
def ldiInstr (instr : Nat) (m : Machine) : Machine :=
  let r0 := (instr >>> 9) &&& 7
  let pc_offset := sign_extend (instr &&& 0x1FF) 9
  let rm1 := mem_read ((m.reg 8 + pc_offset) % 65536) m
  let rm2 := mem_read rm1.1 rm1.2
  { rm2.2 with reg := update_flags r0 (upd rm2.2.reg r0 rm2.1) }

/-- `ldrInstr`. -/
def ldrInstr (instr : Nat) (m : Machine) : Machine :=
  let r0 := (instr >>> 9) &&& 7
  let r1 := (instr >>> 6) &&& 7
  let offset := sign_extend (instr &&& 0x3F) 6
  let rm := mem_read ((m.reg r1 + offset) % 65536) m
  { rm.2 with reg := update_flags r0 (upd rm.2.reg r0 rm.1) }

/-- `leaInstr`. -/
def leaInstr (instr : Nat) (m : Machine) : Machine :=
  let r0 := (instr >>> 9) &&& 7
  let pc_offset := sign_extend (instr &&& 0x1FF) 9
  { m with reg := update_flags r0 (upd m.reg r0 ((m.reg 8 + pc_offset) % 65536)) }

/-- `stInstr`. -/
def stInstr (instr : Nat) (m : Machine) : Machine :=
  let r0 := (instr >>> 9) &&& 7
  let pc_offset := sign_extend (instr &&& 0x1FF) 9
  mem_write ((m.reg 8 + pc_offset) % 65536) (m.reg r0) m

/-- `stiInstr`. -/
def stiInstr (instr : Nat) (m : Machine) : Machine :=
  let r0 := (instr >>> 9) &&& 7
  let pc_offset := sign_extend (instr &&& 0x1FF) 9
  let rm := mem_read ((m.reg 8 + pc_offset) % 65536) m
  mem_write rm.1 (rm.2.reg r0) rm.2

/-- `strInstr`. -/
def strInstr (instr : Nat) (m : Machine) : Machine :=
  let r0 := (instr >>> 9) &&& 7
  let r1 := (instr >>> 6) &&& 7
  let offset := sign_extend (instr &&& 0x3F) 6
  mem_write ((m.reg r1 + offset) % 65536) (m.reg r0) m

/-- The byte-collecting scan of the TRAP PUTS loop, with explicit fuel.
Fuel 0 means the scan has stepped past address `0xFFFF`, off the end of
the 65536-word `memory` array, without meeting a zero word (`none`). -/
def putsScanFuel : Nat → (Nat → Nat) → Nat → Option (List Nat)
  | 0, _, _ => none
  | fuel + 1, mem, a =>
    if mem a = 0 then some []
    else (putsScanFuel fuel mem (a + 1)).map (fun l => mem a % 256 :: l)

/-- The TRAP PUTS scan starting at word address `a`: `some bytes` when a
zero word stops the loop inside the 65536-word memory, `none` when the
loop would run past the last word of memory. -/
def putsScan (mem : Nat → Nat) (a : Nat) : Option (List Nat) :=
  putsScanFuel (65536 - a) mem a

/-- The byte-collecting scan of the TRAP PUTSP loop, with explicit fuel:
per nonzero word, the low byte then, if nonzero, the high byte. -/
def putspScanFuel : Nat → (Nat → Nat) → Nat → Option (List Nat)
  | 0, _, _ => none
  | fuel + 1, mem, a =>
    if mem a = 0 then some []
    else
      (putspScanFuel fuel mem (a + 1)).map
        (fun l =>
          mem a % 256 :: (if (mem a >>> 8) % 256 = 0 then l else (mem a >>> 8) % 256 :: l))

/-- The TRAP PUTSP scan starting at word address `a`. -/
def putspScan (mem : Nat → Nat) (a : Nat) : Option (List Nat) :=
  putspScanFuel (65536 - a) mem a

/-- The bytes of the prompt `Enter a character: ` printed by TRAP IN. -/
def promptBytes : List Nat :=
  [69, 110, 116, 101, 114, 32, 97, 32, 99, 104, 97, 114, 97, 99, 116, 101, 114, 58, 32]

/-- The `switch (instr & 0xFF)` body of `trapInstr`: the trap service
dispatch, after `reg[R_R7]` has been saved.  Returns `none` when a PUTS
or PUTSP scan runs past the end of memory (out-of-bounds in the C code);
an unrecognized vector falls through the switch and changes nothing. -/
def trapService (vec : Nat) (m : Machine) : Option Machine :=
  if vec = 0x20 then
    let cm := getchar m
    some { cm.2 with reg := update_flags 0 (upd cm.2.reg 0 (int2uint16 cm.1)) }
  else if vec = 0x21 then
    some { m with output := m.output ++ [m.reg 0 % 256] }
  else if vec = 0x22 then
    (putsScan m.memory (m.reg 0)).map (fun l => { m with output := m.output ++ l })
  else if vec = 0x23 then
    let cm := getchar m
    let c := int2char cm.1
    some
      { cm.2 with
        output := cm.2.output ++ promptBytes ++ [(c % 256).toNat],
        reg := update_flags 0 (upd cm.2.reg 0 (int2uint16 c)) }
  else if vec = 0x24 then
    (putspScan m.memory (m.reg 0)).map (fun l => { m with output := m.output ++ l })
  else if vec = 0x25 then
    some { m with output := m.output ++ [72, 65, 76, 84, 10], running := false }
  else
    some m

/-- `trapInstr`: save the program counter in `reg[R_R7]`, then dispatch
on the trap vector (the low 8 bits of the instruction). -/
def trapInstr (instr : Nat) (m : Machine) : Option Machine :=
  trapService (instr &&& 0xFF) { m with reg := upd m.reg 7 (m.reg 8) }

/-- One iteration of the run loop: fetch at `reg[R_PC]`, post-increment
the program counter, dispatch on the 4-bit opcode.  `none` models the
`abort()` on the RES and RTI opcodes (the default branch of the C switch
is unreachable for 16-bit instruction words). -/
def step (m : Machine) : Option Machine :=
  let fm := mem_read (m.reg 8) m
  let m2 := { fm.2 with reg := upd fm.2.reg 8 ((m.reg 8 + 1) % 65536) }
  let instr := fm.1
  match instr >>> 12 with
  | 0 => some (brInstr instr m2)
  | 1 => some (addInstr instr m2)
  | 2 => some (ldInstr instr m2)
  | 3 => some (stInstr instr m2)
  | 4 => some (jsrInstr instr m2)
  | 5 => some (andInstr instr m2)
  | 6 => some (ldrInstr instr m2)
  | 7 => some (strInstr instr m2)
  | 8 => none
  | 9 => some (notInstr instr m2)
  | 10 => some (ldiInstr instr m2)
  | 11 => some (stiInstr instr m2)
  | 12 => some (jmpInstr instr m2)
  | 13 => none
  | 14 => some (leaInstr instr m2)
  | 15 => trapInstr instr m2
  | _ => none

/-- The machine state `main` hands to the first fetch: memory as loaded
by the image loader, registers zero-filled except `reg[R_COND] = FL_ZRO`
and `reg[R_PC] = 0x3000`, running flag set. -/
def initMachine (mem : Nat → Nat) (inp : List Nat) (ks : List Bool) : Machine :=
  { memory := mem,
    reg := fun r => if r = 8 then 0x3000 else if r = 9 then 2 else 0,
    input := inp,
    keys := ks,
    output := [],
    running := true }

/-- `swap16` composed with the loader: split a byte stream into
big-endian 16-bit words, dropping a trailing odd byte. -/
def bytesToWords : List Nat → List Nat
  | b0 :: b1 :: rest => (b0 * 256 + b1) :: bytesToWords rest
  | _ => []

/-- Store a list of words at consecutive addresses. -/
def storeWords (mem : Nat → Nat) (a : Nat) : List Nat → Nat → Nat
  | [] => mem
  | w :: ws => storeWords (upd mem a w) (a + 1) ws

/-- `read_image_file`: the first two bytes are the big-endian origin;
`max_read = (uint16_t)(MEMORY_MAX - origin)` words of payload are then
loaded at `memory[origin], memory[origin+1], …` (the `uint16_t` cast
reduces `MEMORY_MAX - origin` modulo 2^16).  Fewer than two bytes load
nothing. -/
def read_image_file (bytes : List Nat) (mem : Nat → Nat) : Nat → Nat :=
  match bytes with
  | b0 :: b1 :: rest =>
    let origin := b0 * 256 + b1
    let max_read := (65536 - origin) % 65536
    storeWords mem origin ((bytesToWords rest).take max_read)
  | _ => mem

/-- The condition-code register holds a one-hot value drawn from
`{FL_POS = 1, FL_ZRO = 2, FL_NEG = 4}`. -/
def condOneHot (m : Machine) : Prop :=
  m.reg 9 = 1 ∨ m.reg 9 = 2 ∨ m.reg 9 = 4

instance (m : Machine) : Decidable (condOneHot m) := by
  unfold condOneHot
  infer_instance

/-! ## Basic lemmas -/

theorem upd_same (f : Nat → Nat) (i v : Nat) : upd f i v i = v := by
  simp [upd]

theorem upd_ne (f : Nat → Nat) (i v j : Nat) (h : j ≠ i) : upd f i v j = f j := by
  simp [upd, h]

theorem int2uint16_ofNat (b : Nat) (h : b < 65536) : int2uint16 (b : Int) = b := by
  unfold int2uint16
  omega

theorem getchar_reg (m : Machine) : (getchar m).2.reg = m.reg := by
  rcases hm : m.input with _ | ⟨b, rest⟩ <;> simp [getchar, hm]

theorem getchar_memory (m : Machine) : (getchar m).2.memory = m.memory := by
  rcases hm : m.input with _ | ⟨b, rest⟩ <;> simp [getchar, hm]

/-! ## Claim theorems -/

/-- C7: ADD wraps modulo 2^16 with no overflow trap: with source operand
values `0x7FFF` and `1` the destination receives `0x8000` and COND is set
to N (= 4); with operand values `0xFFFF` and `1` the destination receives
`0x0000` and COND is set to Z (= 2).  Instruction `0x1042` is
`ADD R0, R1, R2`. -/
theorem add_overflow_wraps (m : Machine) :
    (m.reg 1 = 0x7FFF → m.reg 2 = 1 →
      (addInstr 0x1042 m).reg 0 = 0x8000 ∧ (addInstr 0x1042 m).reg 9 = 4)
    ∧ (m.reg 1 = 0xFFFF → m.reg 2 = 1 →
      (addInstr 0x1042 m).reg 0 = 0 ∧ (addInstr 0x1042 m).reg 9 = 2) := by
  constructor
  · intro h1 h2
    simp +decide [addInstr, update_flags, upd, h1, h2,
      show (8:Nat) &&& 7 = 0 from by decide, show (65:Nat) &&& 7 = 1 from by decide,
      show (4162:Nat) &&& 7 = 2 from by decide, show (130:Nat) &&& 1 = 0 from by decide]
  · intro h1 h2
    simp +decide [addInstr, update_flags, upd, h1, h2,
      show (8:Nat) &&& 7 = 0 from by decide, show (65:Nat) &&& 7 = 1 from by decide,
      show (4162:Nat) &&& 7 = 2 from by decide, show (130:Nat) &&& 1 = 0 from by decide]

/-- Witness for C7 at a concrete machine. -/
theorem add_overflow_wraps_witness :
    ((addInstr 0x1042
        { memory := fun _ => 0, reg := fun r => if r = 1 then 0x7FFF else if r = 2 then 1 else 0,
          input := [], keys := [], output := [], running := true }).reg 0 = 0x8000
      ∧ (addInstr 0x1042
        { memory := fun _ => 0, reg := fun r => if r = 1 then 0x7FFF else if r = 2 then 1 else 0,
          input := [], keys := [], output := [], running := true }).reg 9 = 4) := by
  exact (add_overflow_wraps _).1 (by decide) (by decide)

/-- C1: `mem_read(addr)` with `addr ≠ 0xFE00` returns `memory[addr]` and
changes no state; `mem_read(0xFE00)` polls the keystroke probe: if a
keystroke is pending it stores the next host byte into `memory[0xFE02]`
and `0x8000` into `memory[0xFE00]` and returns `0x8000`; otherwise it
stores `0` into `memory[0xFE00]` and returns `0` — in all cases the value
returned is the (possibly just-updated) word at `addr`. -/
theorem mem_read_correct (m : Machine) (addr : Nat) :
    (addr ≠ MR_KBSR → mem_read addr m = (m.memory addr, m))
    ∧ (∀ b rest, m.keys.headD false = true → m.input = b :: rest → b < 256 →
        mem_read MR_KBSR m =
          (32768,
            { m with
              memory := upd (upd m.memory MR_KBSR 32768) MR_KBDR b,
              input := rest,
              keys := m.keys.tail }))
    ∧ (m.keys.headD false = false →
        mem_read MR_KBSR m =
          (0, { m with memory := upd m.memory MR_KBSR 0, keys := m.keys.tail })) := by
  refine ⟨fun h => ?_, fun b rest hk hi hb => ?_, fun hk => ?_⟩
  · simp [mem_read, h]
  · rw [List.headD_eq_head?_getD] at hk
    simp +decide [mem_read, check_key, getchar, hk, hi, int2uint16_ofNat b (by omega),
      MR_KBSR, MR_KBDR, upd]
  · rw [List.headD_eq_head?_getD] at hk
    simp +decide [mem_read, check_key, hk, MR_KBSR, upd]

/-- Witness for C1 at a concrete machine and address. -/
theorem mem_read_correct_witness :
    mem_read 0x3000
        { memory := fun _ => 7, reg := fun _ => 0, input := [65], keys := [true],
          output := [], running := true } =
      (7, { memory := fun _ => 7, reg := fun _ => 0, input := [65], keys := [true],
            output := [], running := true }) := by
  exact (mem_read_correct _ 0x3000).1 (by decide)

/-- C10: when the keystroke probe reports no key pending, `mem_read(0xFE00)`
returns `0`, stores `0` at `memory[0xFE00]`, and leaves `memory[0xFE02]`,
every other memory word, all registers, the host input, the output and the
running flag unchanged. -/
theorem mem_read_no_key_frame (m : Machine) (h : m.keys.headD false = false) :
    (mem_read MR_KBSR m).1 = 0
    ∧ (mem_read MR_KBSR m).2.memory MR_KBSR = 0
    ∧ (mem_read MR_KBSR m).2.memory MR_KBDR = m.memory MR_KBDR
    ∧ (∀ a, a ≠ MR_KBSR → (mem_read MR_KBSR m).2.memory a = m.memory a)
    ∧ (mem_read MR_KBSR m).2.reg = m.reg
    ∧ (mem_read MR_KBSR m).2.input = m.input
    ∧ (mem_read MR_KBSR m).2.output = m.output
    ∧ (mem_read MR_KBSR m).2.running = m.running := by
  rw [List.headD_eq_head?_getD] at h
  simp +decide [mem_read, check_key, h, MR_KBSR, MR_KBDR, upd]
  exact fun a ha hb => absurd hb ha

/-- Witness for C10 at a concrete machine. -/
theorem mem_read_no_key_frame_witness :
    (mem_read MR_KBSR
        { memory := fun a => if a = MR_KBDR then 90 else 3, reg := fun _ => 0,
          input := [65], keys := [], output := [], running := true }).1 = 0
    ∧ (mem_read MR_KBSR
        { memory := fun a => if a = MR_KBDR then 90 else 3, reg := fun _ => 0,
          input := [65], keys := [], output := [], running := true }).2.memory MR_KBDR = 90 := by
  have h := mem_read_no_key_frame
    { memory := fun a => if a = MR_KBDR then 90 else 3, reg := fun _ => 0,
      input := [65], keys := [], output := [], running := true } (by decide)
  exact ⟨h.1, by rw [h.2.2.1]; decide⟩

/-- A concrete machine state for exercising TRAP with an unrecognized
vector: the program counter is `0x3000` and `R7` is `0`. -/
def c2mach : Machine :=
  { memory := fun _ => 0, reg := fun r => if r = 8 then 0x3000 else 0,
    input := [], keys := [], output := [], running := true }

/-- C2 counterexample: executing TRAP with the unrecognized vector `0x00`
from a state whose `R7` differs from `PC` does not leave the state
unchanged — `reg[R_R7] = reg[R_PC]` runs before the vector dispatch, so
`R7` becomes `0x3000` while it was `0`. -/
theorem trap_unknown_vector_counterexample :
    (trapInstr 0xF000 c2mach).map (fun x => x.reg 7) = some 0x3000
    ∧ c2mach.reg 7 = 0
    ∧ trapInstr 0xF000 c2mach ≠ some c2mach := by
  refine ⟨by decide, by decide, fun h => ?_⟩
  have h7 : (some 0x3000 : Option Nat) = some 0 := by
    calc (some 0x3000 : Option Nat)
        = (trapInstr 0xF000 c2mach).map (fun x => x.reg 7) := by decide
      _ = (some c2mach).map (fun x => x.reg 7) := by rw [h]
      _ = some 0 := by decide
  simp at h7

/-- C2 amended: for every trap vector not in
`{0x20, 0x21, 0x22, 0x23, 0x24, 0x25}`, executing the TRAP instruction
sets `R7 := PC` (the return-address write shared by every TRAP) and
changes nothing else: every other register, COND, all of memory, the
running flag and the output are unchanged, and no error is raised. -/
theorem trap_unknown_vector_frame (instr : Nat) (m : Machine)
    (h20 : instr &&& 0xFF ≠ 0x20) (h21 : instr &&& 0xFF ≠ 0x21)
    (h22 : instr &&& 0xFF ≠ 0x22) (h23 : instr &&& 0xFF ≠ 0x23)
    (h24 : instr &&& 0xFF ≠ 0x24) (h25 : instr &&& 0xFF ≠ 0x25) :
    trapInstr instr m = some { m with reg := upd m.reg 7 (m.reg 8) } := by
  simp [trapInstr, trapService, h20, h21, h22, h23, h24, h25]

/-- Witness for the amended C2 at vector `0x00`. -/
theorem trap_unknown_vector_frame_witness :
    trapInstr 0xF000 c2mach = some { c2mach with reg := upd c2mach.reg 7 (c2mach.reg 8) } :=
  trap_unknown_vector_frame 0xF000 c2mach (by decide) (by decide) (by decide) (by decide)
    (by decide) (by decide)

/-- C6: for every byte delivered by the host byte source, the GETC trap
service (vector `0x20`) sets `R0` to that byte with the high 8 bits zero,
updates COND from `R0` (Z for a zero byte, P otherwise — bit 15 of a byte
is never set), consumes the byte, echoes nothing, and changes no other
register, no memory word, and no other machine state. -/
theorem trap_getc_correct (m : Machine) (b : Nat) (rest : List Nat)
    (hi : m.input = b :: rest) (hb : b < 256) :
    trapService 0x20 m =
      some { m with reg := update_flags 0 (upd m.reg 0 b), input := rest }
    ∧ update_flags 0 (upd m.reg 0 b) 0 = b
    ∧ b >>> 8 = 0
    ∧ update_flags 0 (upd m.reg 0 b) 9 = (if b = 0 then 2 else 1) := by
  have h8 : b >>> 8 = 0 := by
    rw [Nat.shiftRight_eq_div_pow]
    omega
  have h15 : b >>> 15 = 0 := by
    rw [Nat.shiftRight_eq_div_pow]
    omega
  refine ⟨?_, ?_, h8, ?_⟩
  · simp [trapService, getchar, hi, int2uint16_ofNat b (by omega)]
  · simp [update_flags, upd]
  · simp [update_flags, upd, h15]

/-- Witness for C6 with byte 65. -/
theorem trap_getc_correct_witness :
    trapService 0x20
        { memory := fun _ => 0, reg := fun _ => 0, input := [65, 66], keys := [],
          output := [], running := true } =
      some { memory := fun _ => 0,
             reg := update_flags 0 (upd (fun _ => 0) 0 65), input := [66], keys := [],
             output := [], running := true } :=
  (trap_getc_correct
    { memory := fun _ => 0, reg := fun _ => 0, input := [65, 66], keys := [],
      output := [], running := true } 65 [66] rfl (by decide)).1

/-- C5: after executing a JSR, JSRR, or TRAP instruction fetched at
address `A = PC`, register `R7` holds `(A + 1) mod 2^16`, the address of
the instruction that would have followed in straight-line execution (for
TRAP, the post-increment PC saved before the vector dispatch). -/
theorem r7_return_address (m m2 : Machine) (h : step m = some m2)
    (hop : (mem_read (m.reg 8) m).1 >>> 12 = 4 ∨ (mem_read (m.reg 8) m).1 >>> 12 = 15) :
    m2.reg 7 = (m.reg 8 + 1) % 65536 := by
  simp only [step] at h
  split at h
  all_goals try (exfalso; rcases hop with h4 | h15 <;> omega)
  all_goals try ((exfalso; rcases hop with h4 | h15 <;> simp_all); done)
  · -- JSR / JSRR
    obtain rfl := Option.some.inj h
    simp only [jsrInstr]
    split
    · simp [upd]
    · simp [upd]
  · -- TRAP
    simp only [trapInstr, trapService] at h
    split_ifs at h
    · obtain rfl := Option.some.inj h
      simp [update_flags, upd, getchar_reg]
    · obtain rfl := Option.some.inj h
      simp [upd]
    · rw [Option.map_eq_some'] at h
      obtain ⟨l, hl, rfl⟩ := h
      simp [upd]
    · obtain rfl := Option.some.inj h
      simp [update_flags, upd, getchar_reg]
    · rw [Option.map_eq_some'] at h
      obtain ⟨l, hl, rfl⟩ := h
      simp [upd]
    · obtain rfl := Option.some.inj h
      simp [upd]
    · obtain rfl := Option.some.inj h
      simp [upd]

/-- The machine whose word at `0x3000` is the JSR instruction `0x4801`. -/
def c5m0 : Machine := initMachine (fun a => if a = 0x3000 then 0x4801 else 0) [] []

/-- The successor state of `c5m0` under one fetch-execute step. -/
def c5res : Machine := (step c5m0).getD c5m0

/-- Witness for C5: a JSR instruction (`0x4801`) fetched at `0x3000`
leaves `0x3001` in `R7`. -/
theorem r7_return_address_witness :
    step c5m0 = some c5res ∧ c5res.reg 7 = 0x3001 :=
  ⟨rfl, r7_return_address c5m0 c5res rfl (Or.inl (by decide))⟩

/-! ## One-hot condition-code lemmas -/

theorem update_flags_cond (r : Nat) (regs : Nat → Nat) :
    update_flags r regs 9 = 1 ∨ update_flags r regs 9 = 2 ∨ update_flags r regs 9 = 4 := by
  simp only [update_flags, upd_same]
  split_ifs <;> simp

theorem mem_read_reg (a : Nat) (m : Machine) : (mem_read a m).2.reg = m.reg := by
  simp only [mem_read, check_key]
  split
  · split
    · simp [getchar_reg]
    · rfl
  · rfl

theorem condOneHot_add (i : Nat) (m : Machine) : condOneHot (addInstr i m) :=
  update_flags_cond _ _

theorem condOneHot_and (i : Nat) (m : Machine) : condOneHot (andInstr i m) :=
  update_flags_cond _ _

theorem condOneHot_not (i : Nat) (m : Machine) : condOneHot (notInstr i m) :=
  update_flags_cond _ _

theorem condOneHot_ld (i : Nat) (m : Machine) : condOneHot (ldInstr i m) :=
  update_flags_cond _ _

theorem condOneHot_ldi (i : Nat) (m : Machine) : condOneHot (ldiInstr i m) :=
  update_flags_cond _ _

theorem condOneHot_ldr (i : Nat) (m : Machine) : condOneHot (ldrInstr i m) :=
  update_flags_cond _ _

theorem condOneHot_lea (i : Nat) (m : Machine) : condOneHot (leaInstr i m) :=
  update_flags_cond _ _

theorem condOneHot_br (i : Nat) (m : Machine) (h : condOneHot m) :
    condOneHot (brInstr i m) := by
  unfold condOneHot at *
  simp only [brInstr]
  split
  · simpa [upd] using h
  · exact h

theorem condOneHot_jmp (i : Nat) (m : Machine) (h : condOneHot m) :
    condOneHot (jmpInstr i m) := by
  unfold condOneHot at *
  simp only [jmpInstr]
  simpa [upd] using h

theorem condOneHot_jsr (i : Nat) (m : Machine) (h : condOneHot m) :
    condOneHot (jsrInstr i m) := by
  unfold condOneHot at *
  simp only [jsrInstr]
  split <;> simpa [upd] using h

theorem condOneHot_st (i : Nat) (m : Machine) (h : condOneHot m) :
    condOneHot (stInstr i m) := h

theorem condOneHot_str (i : Nat) (m : Machine) (h : condOneHot m) :
    condOneHot (strInstr i m) := h

theorem condOneHot_sti (i : Nat) (m : Machine) (h : condOneHot m) :
    condOneHot (stiInstr i m) := by
  unfold condOneHot stiInstr mem_write at *
  simpa [mem_read_reg] using h

theorem condOneHot_trapService (v : Nat) (m m2 : Machine) (h : condOneHot m)
    (hs : trapService v m = some m2) : condOneHot m2 := by
  unfold trapService at hs
  split_ifs at hs
  · obtain rfl := Option.some.inj hs
    exact update_flags_cond _ _
  · obtain rfl := Option.some.inj hs
    exact h
  · rw [Option.map_eq_some'] at hs
    obtain ⟨l, _, rfl⟩ := hs
    exact h
  · obtain rfl := Option.some.inj hs
    exact update_flags_cond _ _
  · rw [Option.map_eq_some'] at hs
    obtain ⟨l, _, rfl⟩ := hs
    exact h
  · obtain rfl := Option.some.inj hs
    exact h
  · obtain rfl := Option.some.inj hs
    exact h

theorem condOneHot_trap (i : Nat) (m m2 : Machine) (h : condOneHot m)
    (ht : trapInstr i m = some m2) : condOneHot m2 := by
  refine condOneHot_trapService _ _ _ ?_ ht
  unfold condOneHot at *
  simpa [upd] using h

/-- C4: the condition-code register is one-hot over `{P = 1, Z = 2, N = 4}`
at initialization (`COND = Z`) and this is preserved by every fetched
instruction — every opcode handler and every trap service routine —, so
for every reachable state COND is in `{0b001, 0b010, 0b100}` both before
and after each executed instruction. -/
theorem cond_one_hot_invariant :
    (∀ mem inp ks, condOneHot (initMachine mem inp ks))
    ∧ (∀ m m2, condOneHot m → step m = some m2 → condOneHot m2) := by
  constructor
  · intro mem inp ks
    simp [condOneHot, initMachine]
  · intro m m2 h hs
    have hpre :
        condOneHot
          { (mem_read (m.reg 8) m).2 with
            reg := upd ((mem_read (m.reg 8) m).2).reg 8 ((m.reg 8 + 1) % 65536) } := by
      unfold condOneHot at *
      simpa [upd, mem_read_reg] using h
    simp only [step] at hs
    split at hs
    · obtain rfl := Option.some.inj hs
      exact condOneHot_br _ _ hpre
    · obtain rfl := Option.some.inj hs
      exact condOneHot_add _ _
    · obtain rfl := Option.some.inj hs
      exact condOneHot_ld _ _
    · obtain rfl := Option.some.inj hs
      exact condOneHot_st _ _ hpre
    · obtain rfl := Option.some.inj hs
      exact condOneHot_jsr _ _ hpre
    · obtain rfl := Option.some.inj hs
      exact condOneHot_and _ _
    · obtain rfl := Option.some.inj hs
      exact condOneHot_ldr _ _
    · obtain rfl := Option.some.inj hs
      exact condOneHot_str _ _ hpre
    · exact Option.noConfusion hs
    · obtain rfl := Option.some.inj hs
      exact condOneHot_not _ _
    · obtain rfl := Option.some.inj hs
      exact condOneHot_ldi _ _
    · obtain rfl := Option.some.inj hs
      exact condOneHot_sti _ _ hpre
    · obtain rfl := Option.some.inj hs
      exact condOneHot_jmp _ _ hpre
    · exact Option.noConfusion hs
    · obtain rfl := Option.some.inj hs
      exact condOneHot_lea _ _
    · exact condOneHot_trap _ _ _ hpre hs
    · exact Option.noConfusion hs

/-- All-zero memory, no host input: the first fetched instruction is a
never-taken BR. -/
def c4m0 : Machine := initMachine (fun _ => 0) [] []

/-- The successor state of `c4m0` under one fetch-execute step. -/
def c4res : Machine := (step c4m0).getD c4m0

/-- Witness for C4: one concrete step from a one-hot state stays one-hot. -/
theorem cond_one_hot_invariant_witness : condOneHot c4res :=
  cond_one_hot_invariant.2 c4m0 c4res (by decide) rfl

/-! ## Image loader lemmas -/

theorem storeWords_apply (ws : List Nat) (mem : Nat → Nat) (a x : Nat) :
    storeWords mem a ws x =
      if a ≤ x ∧ x < a + ws.length then ws.getD (x - a) 0 else mem x := by
  induction ws generalizing mem a with
  | nil =>
    simp only [storeWords, List.length_nil]
    rw [if_neg]
    omega
  | cons w ws ih =>
    simp only [storeWords, List.length_cons]
    rw [ih]
    by_cases hx : x = a
    · subst hx
      rw [if_neg (by omega), if_pos (by omega)]
      simp [upd]
    · by_cases hrange : a + 1 ≤ x ∧ x < a + 1 + ws.length
      · rw [if_pos hrange, if_pos (by omega)]
        have hxa : x - a = (x - (a + 1)) + 1 := by omega
        rw [hxa]
        simp
      · rw [if_neg hrange, if_neg (by omega)]
        simp [upd, hx]

theorem take_getD (l : List Nat) (n i : Nat) (h : i < n) :
    (l.take n).getD i 0 = l.getD i 0 := by
  induction l generalizing n i with
  | nil => simp
  | cons w ws ih =>
    cases n with
    | zero => omega
    | succ n =>
      cases i with
      | zero => simp
      | succ i =>
        simp only [List.take_succ_cons, List.getD_cons_succ]
        exact ih n i (by omega)

/-- C3 counterexample: the image `[0x00, 0x00, 0xAB, 0xCD]` declares
origin `0x0000` with a one-word payload; the claim predicts
`min(1, 0x10000 - 0) = 1` word loaded, i.e. `memory[0] = 0xABCD`, but
`max_read = (uint16_t)(0x10000 - 0) = 0`, so nothing is loaded. -/
theorem image_loader_counterexample :
    read_image_file [0, 0, 171, 205] (fun _ => 0) 0 = 0
    ∧ read_image_file [0, 0, 171, 205] (fun _ => 0) 0 ≠ 43981 := by
  refine ⟨by decide, ?_⟩
  intro h
  rw [show read_image_file [0, 0, 171, 205] (fun _ => 0) 0 = 0 from by decide] at h
  omega

/-- C3 amended: for an image with declared big-endian origin
`b0 * 256 + b1` and payload words `ws`, the loader stores exactly
`k = min (length ws) ((0x10000 - origin) mod 0x10000)` words — the
`uint16_t` cast in `max_read = MEMORY_MAX - origin` reduces the room
modulo 2^16, so an origin of 0 loads nothing — at
`memory[origin], memory[origin+1], …`, and leaves every address outside
`[origin, origin + k)` unchanged. -/
theorem image_loader_truncates (b0 b1 : Nat) (payload : List Nat) (mem : Nat → Nat) :
    (∀ i, i < min (bytesToWords payload).length ((65536 - (b0 * 256 + b1)) % 65536) →
      read_image_file (b0 :: b1 :: payload) mem (b0 * 256 + b1 + i) =
        (bytesToWords payload).getD i 0)
    ∧ (∀ x, x < b0 * 256 + b1 ∨
          b0 * 256 + b1 + min (bytesToWords payload).length ((65536 - (b0 * 256 + b1)) % 65536) ≤ x →
        read_image_file (b0 :: b1 :: payload) mem x = mem x) := by
  have hlen : ((bytesToWords payload).take ((65536 - (b0 * 256 + b1)) % 65536)).length =
      min (bytesToWords payload).length ((65536 - (b0 * 256 + b1)) % 65536) := by
    simp [List.length_take]
    omega
  constructor
  · intro i hi
    simp only [read_image_file]
    rw [storeWords_apply, hlen, if_pos (by omega), show b0 * 256 + b1 + i - (b0 * 256 + b1) = i from by omega]
    exact take_getD _ _ _ (by omega)
  · intro x hx
    simp only [read_image_file]
    rw [storeWords_apply, hlen, if_neg (by omega)]

/-- Witness for the amended C3: origin `0xFFFE` with three payload words
loads exactly two of them. -/
theorem image_loader_truncates_witness :
    read_image_file [255, 254, 0, 1, 0, 2, 0, 3] (fun _ => 9) 65534 = 1
    ∧ read_image_file [255, 254, 0, 1, 0, 2, 0, 3] (fun _ => 9) 65535 = 2
    ∧ read_image_file [255, 254, 0, 1, 0, 2, 0, 3] (fun _ => 9) 65533 = 9 := by
  refine ⟨?_, ?_, ?_⟩
  · exact (image_loader_truncates 255 254 [0, 1, 0, 2, 0, 3] (fun _ => 9)).1 0 (by decide)
  · exact (image_loader_truncates 255 254 [0, 1, 0, 2, 0, 3] (fun _ => 9)).1 1 (by decide)
  · exact (image_loader_truncates 255 254 [0, 1, 0, 2, 0, 3] (fun _ => 9)).2 65533
      (Or.inl (by decide))

/-! ## LEA/LDR versus LD -/

theorem mem_read_pure (a : Nat) (m : Machine) (h : a ≠ MR_KBSR) :
    mem_read a m = (m.memory a, m) := by
  simp [mem_read, h]

/-- C8: executing `LEA dr, off` at address `A` (handler PC `A + 1`)
followed by `LDR dr2, dr, 0` at address `A + 1` (handler PC `A + 2`)
leaves `dr2` and COND equal to what executing `LD dr2, off` at address
`A` leaves them, provided `dr` and `dr2` are distinct general-purpose
registers and the addressed cell is not a memory-mapped register.  The
instruction words are abstract, constrained only by their decoded
fields. -/
theorem lea_ldr_equals_ld (s : Machine) (A off dr dr2 i1 i2 i3 : Nat)
    (hdr : dr < 8) (hdr2 : dr2 < 8) (hne : dr ≠ dr2)
    (h1a : (i1 >>> 9) &&& 7 = dr) (h1b : i1 &&& 0x1FF = off)
    (h2a : (i2 >>> 9) &&& 7 = dr2) (h2b : (i2 >>> 6) &&& 7 = dr) (h2c : i2 &&& 0x3F = 0)
    (h3a : (i3 >>> 9) &&& 7 = dr2) (h3b : i3 &&& 0x1FF = off)
    (ht : (A + 1 + sign_extend off 9) % 65536 ≠ MR_KBSR)
    (ht2 : (A + 1 + sign_extend off 9) % 65536 ≠ MR_KBDR) :
    (ldrInstr i2
        { leaInstr i1 { s with reg := upd s.reg 8 ((A + 1) % 65536) } with
          reg := upd (leaInstr i1 { s with reg := upd s.reg 8 ((A + 1) % 65536) }).reg 8
            ((A + 2) % 65536) }).reg dr2 =
      (ldInstr i3 { s with reg := upd s.reg 8 ((A + 1) % 65536) }).reg dr2
    ∧ (ldrInstr i2
        { leaInstr i1 { s with reg := upd s.reg 8 ((A + 1) % 65536) } with
          reg := upd (leaInstr i1 { s with reg := upd s.reg 8 ((A + 1) % 65536) }).reg 8
            ((A + 2) % 65536) }).reg 9 =
      (ldInstr i3 { s with reg := upd s.reg 8 ((A + 1) % 65536) }).reg 9 := by
  have hd8 : dr ≠ 8 := by omega
  have hd9 : dr ≠ 9 := by omega
  have hd28 : dr2 ≠ 8 := by omega
  have hd29 : dr2 ≠ 9 := by omega
  have hT0 : ((A + 1 + sign_extend off 9) % 65536 + sign_extend 0 6) % 65536
      = (A + 1 + sign_extend off 9) % 65536 := by
    rw [show sign_extend 0 6 = 0 from by decide]
    omega
  constructor <;>
    simp [ldrInstr, ldInstr, leaInstr, h1a, h1b, h2a, h2b, h2c, h3a, h3b,
      update_flags, upd, mem_read_pure, ht, hT0, Nat.mod_add_mod,
      hd8, hd9, hd28, hd29, hne, Ne.symm hne]

/-- A machine with value 77 at the cell addressed by the C8 witness. -/
def c8s : Machine :=
  { memory := fun a => if a = 0x3005 then 77 else 0, reg := fun _ => 0,
    input := [], keys := [], output := [], running := true }

/-- State of the C8 witness after the first fetch (handler PC `0x3001`). -/
def c8sA : Machine := { c8s with reg := upd c8s.reg 8 ((12288 + 1) % 65536) }

/-- State of the C8 witness after LEA and the second fetch. -/
def c8sB : Machine :=
  { leaInstr 0xE204 c8sA with reg := upd (leaInstr 0xE204 c8sA).reg 8 ((12288 + 2) % 65536) }

/-- Witness for C8: `LEA R1, #4` at `0x3000` then `LDR R2, R1, #0`
agrees with `LD R2, #4` at `0x3000` on `R2` and COND. -/
theorem lea_ldr_equals_ld_witness :
    (ldrInstr 0x6440 c8sB).reg 2 = (ldInstr 0x2404 c8sA).reg 2
    ∧ (ldrInstr 0x6440 c8sB).reg 9 = (ldInstr 0x2404 c8sA).reg 9 :=
  lea_ldr_equals_ld c8s 12288 4 1 2 0xE204 0x6440 0x2404 (by decide) (by decide)
    (by decide) (by decide) (by decide) (by decide) (by decide) (by decide) (by decide)
    (by decide) (by decide) (by decide)

/-! ## PUTS termination and output -/

theorem putsScanFuel_isSome (fuel : Nat) (mem : Nat → Nat) (a : Nat) :
    (putsScanFuel fuel mem a).isSome = true ↔ ∃ z, a ≤ z ∧ z < a + fuel ∧ mem z = 0 := by
  induction fuel generalizing a with
  | zero =>
    simp only [putsScanFuel, Option.isSome_none]
    constructor
    · intro h
      exact absurd h (by simp)
    · intro ⟨z, h1, h2, _⟩
      omega
  | succ fuel ih =>
    simp only [putsScanFuel]
    by_cases h0 : mem a = 0
    · simp only [h0, if_pos rfl]
      exact ⟨fun _ => ⟨a, le_refl a, by omega, h0⟩, fun _ => rfl⟩
    · rw [if_neg h0]
      simp only [Option.isSome_map']
      rw [ih (a + 1)]
      constructor
      · intro ⟨z, h1, h2, h3⟩
        exact ⟨z, by omega, by omega, h3⟩
      · intro ⟨z, h1, h2, h3⟩
        have : z ≠ a := fun he => h0 (he ▸ h3)
        exact ⟨z, by omega, by omega, h3⟩

theorem putsScanFuel_output (fuel : Nat) (mem : Nat → Nat) (a z : Nat)
    (hz1 : a ≤ z) (hz2 : z < a + fuel) (hz0 : mem z = 0)
    (hmin : ∀ b, a ≤ b → b < z → mem b ≠ 0) :
    putsScanFuel fuel mem a =
      some ((List.range (z - a)).map (fun i => mem (a + i) % 256)) := by
  induction fuel generalizing a with
  | zero => omega
  | succ fuel ih =>
    by_cases h0 : mem a = 0
    · have hza : z = a := by
        by_contra hne
        exact hmin a (le_refl a) (by omega) h0
      subst hza
      simp [putsScanFuel, h0]
    · have hza : a < z := by
        rcases Nat.lt_or_ge a z with h | h
        · exact h
        · exact absurd (by omega : z = a) (fun he => h0 (he ▸ hz0))
      rw [putsScanFuel, if_neg h0,
        ih (a + 1) (by omega) (by omega) (fun b hb1 hb2 => hmin b (by omega) hb2)]
      simp only [Option.map_some', Option.some.injEq]
      rw [show z - a = (z - (a + 1)) + 1 from by omega, List.range_succ_eq_map]
      simp only [List.map_cons, List.map_map, Nat.add_zero]
      refine congrArg (mem a % 256 :: ·) (List.map_congr_left fun i _ => ?_)
      simp only [Function.comp]
      rw [show a + (i + 1) = a + 1 + i from by omega]

/-- C9: the TRAP PUTS loop, scanning from word address `R0`, terminates
inside memory if and only if some address `z` with `R0 ≤ z < 0x10000`
holds a zero word (otherwise the scan runs past the last word of the
65536-word memory, modelled as `none`); when it terminates it outputs
exactly the low 8 bits of each word from `R0` up to but not including
the first zero word, in address order; and the PUTS trap service appends
exactly that byte sequence to the host output. -/
theorem puts_scan_correct (mem : Nat → Nat) (r0 : Nat) (hr : r0 < 65536) :
    ((putsScan mem r0).isSome = true ↔ ∃ z, r0 ≤ z ∧ z < 65536 ∧ mem z = 0)
    ∧ (∀ z, r0 ≤ z → z < 65536 → mem z = 0 → (∀ b, r0 ≤ b → b < z → mem b ≠ 0) →
        putsScan mem r0 = some ((List.range (z - r0)).map (fun i => mem (r0 + i) % 256)))
    ∧ (∀ m : Machine, trapService 0x22 m =
        (putsScan m.memory (m.reg 0)).map (fun l => { m with output := m.output ++ l })) := by
  refine ⟨?_, ?_, ?_⟩
  · rw [putsScan, putsScanFuel_isSome]
    constructor
    · intro ⟨z, h1, h2, h3⟩
      exact ⟨z, h1, by omega, h3⟩
    · intro ⟨z, h1, h2, h3⟩
      exact ⟨z, h1, by omega, h3⟩
  · intro z hz1 hz2 hz0 hmin
    exact putsScanFuel_output _ mem r0 z hz1 (by omega) hz0 hmin
  · intro m
    simp [trapService]

/-- Witness for C9: scanning from address 3 with the first zero word at
address 5 outputs the two bytes before it. -/
theorem puts_scan_correct_witness :
    putsScan (fun a => if a = 5 then 0 else 65) 3 = some [65, 65] := by
  have h := (puts_scan_correct (fun a => if a = 5 then 0 else 65) 3 (by decide)).2.1 5
    (by decide) (by decide) (by decide)
    (fun b hb1 hb2 => by interval_cases b <;> simp)
  exact h.trans (by decide)

end LC3
